import Mathlib

/-!
Shallow embedding of `src/qutip_qip/device/circuitqed.py` (`SCQubitsModel`).

The parameter pipeline (`__init__` / `_compute_params`) is embedded over `ℚ`:
the Python code computes with floats, but every claim under study is about the
closed-form rational expressions, list lengths and control flow, not about
floating-point rounding.  Division is the Lean field division on `ℚ` (with the
`x / 0 = 0` convention standing in for the non-finite values the float code
produces on a zero detuning).  Fallible steps (list indexing, the broadcasting
helper) are modelled with `Except`.
-/

namespace SCQ

/-- A hardware parameter as supplied by the caller: either a scalar or a list
(the Python keyword table accepts both). -/
inductive PValue where
  | scalar (x : ℚ)
  | list (xs : List ℚ)
deriving DecidableEq

/-- The raw keyword-parameter table relevant to the model (`t1`/`t2` and the
noise flag play no role in any claim and are omitted). -/
structure RawParams where
  wq : PValue
  wr : PValue
  alpha : PValue
  g : PValue
  omega_single : PValue
  omega_cr : PValue
deriving DecidableEq

/-- Errors that model construction can surface.  `configurationError` is the
eager-validation error the spec names; `indexError` / `typeError` stand for the
Python `IndexError` / `TypeError` raised by an out-of-range or ill-typed list
access during construction; `zeroDivisionError` stands for the Python
`ZeroDivisionError` raised by the pure-Python division
`1 / (wq[i] - wq[i+1])` in the zx loops when a list-supplied `wq` has equal
adjacent entries (that subtraction is plain Python arithmetic — `wq` never
passes through the broadcasting helper — while every other denominator is
numpy-mediated and silently yields non-finite values instead of raising). -/
inductive BuildError where
  | configurationError
  | indexError
  | typeError
  | zeroDivisionError
deriving DecidableEq

/-- Modelled from the spec: the broadcasting helper (`_to_array` from the
processor module) is not among the sources here; per the spec it replicates a
scalar to the required length and fails with a configuration error when a
supplied list has the wrong length. -/
def toArray (p : PValue) (n : ℕ) : Except BuildError (List ℚ) :=
  match p with
  | PValue.scalar x => Except.ok (List.replicate n x)
  | PValue.list xs =>
      if xs.length = n then Except.ok xs else Except.error BuildError.configurationError

/-- Default bare qubit frequencies: `((5.15, 5.09) * ceil(n / 2))[:n]`. -/
def defaultWq (n : ℕ) : List ℚ :=
  ((List.replicate ((n + 1) / 2) [515 / 100, 509 / 100]).flatten).take n

/-- The default raw parameter table of `SCQubitsModel.__init__`. -/
def defaultParams (n : ℕ) : RawParams :=
  { wq := PValue.list (defaultWq n)
    wr := PValue.scalar (596 / 100)
    alpha := PValue.scalar (-3 / 10)
    g := PValue.scalar (1 / 10)
    omega_single := PValue.scalar (1 / 100)
    omega_cr := PValue.scalar (1 / 100) }

/-- Dressed qubit frequencies, mirroring the `wq_dr` loop of `_compute_params`:
`tmp = wq[i]`, plus `g[2i-1]^2/(wq[i]-wr[i-1])` when `i != 0`, plus
`g[2i]^2/(wq[i]-wr[i])` when `i != num_qubits-1`. -/
def wqDressedList (N : ℕ) (wq wr g : List ℚ) : List ℚ :=
  (List.range N).map fun i =>
    wq.getD i 0
      + (if i ≠ 0 then (g.getD (2 * i - 1) 0) ^ 2 / (wq.getD i 0 - wr.getD (i - 1) 0) else 0)
      + (if i ≠ N - 1 then (g.getD (2 * i) 0) ^ 2 / (wq.getD i 0 - wr.getD i 0) else 0)

/-- Dressed resonator frequencies, mirroring the `wr_dr` loop of
`_compute_params`. -/
def wrDressedList (N : ℕ) (wq wr g alpha : List ℚ) : List ℚ :=
  (List.range (N - 1)).map fun i =>
    wr.getD i 0
      - (g.getD (2 * i) 0) ^ 2 / (wq.getD i 0 - wr.getD i 0 + alpha.getD i 0)
      - (g.getD (2 * i + 1) 0) ^ 2 / (wq.getD (i + 1) 0 - wr.getD i 0 + alpha.getD i 0)

/-- Effective qubit-qubit coupling `J`, mirroring the `J` loop of
`_compute_params`. -/
def Jlist (N : ℕ) (wq wr g : List ℚ) : List ℚ :=
  (List.range (N - 1)).map fun i =>
    g.getD (2 * i) 0 * g.getD (2 * i + 1) 0
        * (wq.getD i 0 + wq.getD (i + 1) 0 - 2 * wr.getD i 0)
      / 2 / (wq.getD i 0 - wr.getD i 0) / (wq.getD (i + 1) 0 - wr.getD i 0)

/-- Forward pass of the `zx_coeff` computation: `for i in range(num_qubits - 1)`.
The second denominator `wq[i] - wq[i+1]` is pure-Python arithmetic in the
source (for a list-supplied `wq`) and raises `ZeroDivisionError` when it is
zero; `construct` models that raise before this total function is used, so the
`x / 0 = 0` convention is only ever exercised for the numpy-mediated
denominators (which produce non-finite values, not errors). -/
def zxForward (N : ℕ) (wq alpha omega_cr J : List ℚ) : List ℚ :=
  (List.range (N - 1)).map fun i =>
    J.getD i 0 * omega_cr.getD i 0
      * (1 / (wq.getD i 0 - wq.getD (i + 1) 0 + alpha.getD i 0)
          - 1 / (wq.getD i 0 - wq.getD (i + 1) 0))

/-- Backward pass of the `zx_coeff` computation:
`for i in range(num_qubits - 1, 0, -1)`, i.e. `i = N-1-k` for `k = 0..N-2`.
The bare denominator `wq[i] - wq[i-1]` raises `ZeroDivisionError` in the
source when zero, over the same adjacent pairs as the forward pass; the raise
is modelled in `construct` (the forward pass hits it first). -/
def zxBackward (N : ℕ) (wq alpha omega_cr J : List ℚ) : List ℚ :=
  (List.range (N - 1)).map fun k =>
    J.getD (N - 1 - k - 1) 0 * omega_cr.getD (N - 1 - k) 0
      * (1 / (wq.getD (N - 1 - k) 0 - wq.getD (N - 1 - k - 1) 0 + alpha.getD (N - 1 - k) 0)
          - 1 / (wq.getD (N - 1 - k) 0 - wq.getD (N - 1 - k - 1) 0))

/-- The full `zx_coeff` sequence: forward pass, then backward pass, the whole
list multiplied by 2 (`np.asarray(zx_coeff) * 2`). -/
def zxCoeffList (N : ℕ) (wq alpha omega_cr J : List ℚ) : List ℚ :=
  (zxForward N wq alpha omega_cr J ++ zxBackward N wq alpha omega_cr J).map (· * 2)

/-- The constructed model: the normalized parameter table together with the
derived quantities `_compute_params` stores into `self.params`. -/
structure SCModel where
  num_qubits : ℕ
  dims : List ℕ
  wq : List ℚ
  wr : List ℚ
  alpha : List ℚ
  g : List ℚ
  omega_single : List ℚ
  omega_cr : List ℚ
  wq_dressed : List ℚ
  wr_dressed : List ℚ
  J : List ℚ
  zx_coeff : List ℚ
deriving DecidableEq

/-- Model construction, mirroring `SCQubitsModel.__init__` followed by
`_compute_params` and the operator set-up.  The broadcasting calls happen in
the source order (`alpha`, `omega_single`, `omega_cr`, then `wr`, then `g`).
`wq` is never passed through the broadcasting helper: the derivation loops
index `self.params["wq"]` directly, so a scalar raises a type error (for
`num_qubits ≥ 1`) and a list raises an index error iff it is shorter than
`num_qubits` (the `wq_dressed` loop, which runs first, indexes `wq[0..N-1]`).
After the dressed/`J` loops (whose divisions are all numpy-mediated and never
raise), the zx loop evaluates the pure-Python `1 / (wq[i] - wq[i+1])`, which
raises `ZeroDivisionError` at the first adjacent pair of equal `wq` entries;
that is the guard before the final check.  The final check models the
`dims[m]` accesses of `_set_up_drift` / `_set_up_controls`. -/
def construct (num_qubits : ℕ) (dims : List ℕ) (raw : RawParams) :
    Except BuildError SCModel := do
  let alpha ← toArray raw.alpha num_qubits
  let omega_single ← toArray raw.omega_single num_qubits
  let omega_cr ← toArray raw.omega_cr num_qubits
  let wr ← toArray raw.wr (num_qubits - 1)
  let g ← toArray raw.g (2 * (num_qubits - 1))
  let wq ← (match raw.wq with
    | PValue.scalar _ =>
        if num_qubits = 0 then Except.ok [] else Except.error BuildError.typeError
    | PValue.list xs =>
        if num_qubits ≤ xs.length then Except.ok xs
        else Except.error BuildError.indexError)
  if (List.range (num_qubits - 1)).any (fun i => wq.getD i 0 == wq.getD (i + 1) 0) then
    Except.error BuildError.zeroDivisionError
  else if num_qubits ≤ dims.length then
    Except.ok
      { num_qubits := num_qubits
        dims := dims
        wq := wq
        wr := wr
        alpha := alpha
        g := g
        omega_single := omega_single
        omega_cr := omega_cr
        wq_dressed := wqDressedList num_qubits wq wr g
        wr_dressed := wrDressedList num_qubits wq wr g alpha
        J := Jlist num_qubits wq wr g
        zx_coeff := zxCoeffList num_qubits wq alpha omega_cr (Jlist num_qubits wq wr g) }
  else
    Except.error BuildError.indexError

/-- Concrete raw parameters used to witness the theorems below. -/
def wRawA : RawParams :=
  { wq := PValue.list [3, 4]
    wr := PValue.scalar 1
    alpha := PValue.scalar 2
    g := PValue.scalar 1
    omega_single := PValue.scalar 1
    omega_cr := PValue.scalar 1 }

/-- The model produced by `construct 2 [3, 3] wRawA`. -/
def wModelA : SCModel :=
  { num_qubits := 2, dims := [3, 3], wq := [3, 4], wr := [1], alpha := [2, 2], g := [1, 1]
    omega_single := [1, 1], omega_cr := [1, 1]
    wq_dressed := [7/2, 13/3], wr_dressed := [11/20], J := [5/12], zx_coeff := [5/3, -5/9] }

/-- Raw parameters with an over-long `wq` list for `num_qubits = 2` (adjacent
entries distinct, so the pure-Python `1 / (wq[i] - wq[i+1])` never raises). -/
def wRawLong : RawParams := { defaultParams 2 with wq := PValue.list [5, 6, 7] }

/-- The model produced by `construct 2 [3, 3] wRawLong`: `wq` keeps length 3. -/
def wModelLong : SCModel :=
  { num_qubits := 2, dims := [3, 3], wq := [5, 6, 7], wr := [149/25]
    alpha := [-3/10, -3/10], g := [1/10, 1/10]
    omega_single := [1/100, 1/100], omega_cr := [1/100, 1/100]
    wq_dressed := [479/96, 25/4], wr_dressed := [122981/20475]
    J := [23/192], zx_coeff := [23/41600, 23/22400] }

/-- Raw parameters with an exactly resonant first qubit: `wq[0] = wr[0] = 5.96`. -/
def wRawRes : RawParams := { defaultParams 2 with wq := PValue.list [596/100, 5] }

/-- The model produced by `construct 2 [3, 3] wRawRes`: construction succeeds at
exact resonance; the divisions by the zero detuning `wq[0] - wr[0]` land on the
`x / 0 = 0` convention of this embedding (the float code would produce
non-finite values there). -/
def wModelRes : SCModel :=
  { num_qubits := 2, dims := [3, 3], wq := [149/25, 5], wr := [149/25]
    alpha := [-3/10, -3/10], g := [1/10, 1/10]
    omega_single := [1/100, 1/100], omega_cr := [1/100, 1/100]
    wq_dressed := [149/25, 479/96], wr_dressed := [9452/1575]
    J := [0], zx_coeff := [0, 0] }

/-- Reflection-symmetric raw parameters for `num_qubits = 3`:
`wq = [5, 6, 5]` with uniform `wr`, `g`, `alpha`, `omega_cr`. -/
def wRawSym : RawParams := { defaultParams 3 with wq := PValue.list [5, 6, 5] }

/-- The model produced by `construct 3 [3, 3, 3] wRawSym`. -/
def wModelSym : SCModel :=
  { num_qubits := 3, dims := [3, 3, 3], wq := [5, 6, 5], wr := [149/25, 149/25]
    alpha := [-3/10, -3/10, -3/10], g := [1/10, 1/10, 1/10, 1/10]
    omega_single := [1/100, 1/100, 1/100], omega_cr := [1/100, 1/100, 1/100]
    wq_dressed := [479/96, 13/2, 479/96], wr_dressed := [122981/20475, 122981/20475]
    J := [23/192, 23/192], zx_coeff := [23/41600, 23/22400, 23/41600, 23/22400] }

/-- Raw parameters with an `alpha` list of the wrong length for `num_qubits = 3`. -/
def wRawBadAlpha : RawParams := { defaultParams 3 with alpha := PValue.list [1] }

/-- The (degenerate) model produced by `construct 0 [] (defaultParams 0)`. -/
def wModelZero : SCModel :=
  { num_qubits := 0, dims := [], wq := [], wr := [], alpha := [], g := []
    omega_single := [], omega_cr := [], wq_dressed := [], wr_dressed := []
    J := [], zx_coeff := [] }

open Matrix

/-- The annihilation operator `destroy(d)` of qutip: entries
`a[m, n] = sqrt(n)` when `n = m + 1`, `0` otherwise. -/
noncomputable def destroyMat (d : ℕ) : Matrix (Fin d) (Fin d) ℂ :=
  Matrix.of fun i j => if (j : ℕ) = (i : ℕ) + 1 then ((Real.sqrt (j : ℕ) : ℝ) : ℂ) else 0

/-- The basis ket `basis(d, n)` as a vector. -/
def ket (d n : ℕ) : Fin d → ℂ := fun i => if (i : ℕ) = n then 1 else 0

/-- The outer product `basis(d, n) * basis(d, n).dag()`. -/
noncomputable def ketProj (d n : ℕ) : Matrix (Fin d) (Fin d) ℂ :=
  Matrix.of fun i j => ket d n i * star (ket d n j)

/-- The projector onto the `{|0>, |1>}` subspace of one site:
`basis(d, 0)*basis(d, 0).dag() + basis(d, 1)*basis(d, 1).dag()`. -/
noncomputable def projector01 (d : ℕ) : Matrix (Fin d) (Fin d) ℂ :=
  ketProj d 0 + ketProj d 1

/-- Single-qubit X drive operator of `_set_up_controls`:
`2 * pi / 2 * (a + a.dag())`. -/
noncomputable def sxOp (d : ℕ) : Matrix (Fin d) (Fin d) ℂ :=
  ((2 * Real.pi / 2 : ℝ) : ℂ) • (destroyMat d + (destroyMat d)ᴴ)

/-- Single-qubit Y drive operator of `_set_up_controls`:
`2 * pi / 2 * (a * (-1j) + a.dag() * 1j)` (the scalar factors are written as
scalar multiples here). -/
noncomputable def syOp (d : ℕ) : Matrix (Fin d) (Fin d) ℂ :=
  ((2 * Real.pi / 2 : ℝ) : ℂ) • ((-Complex.I) • destroyMat d + Complex.I • (destroyMat d)ᴴ)

/-- Projected Z-like operator of `_set_up_controls`:
`projector * (-a.dag()*a*2 + qeye(d)) / 2 * projector` (the scalar `/2` is
written as a scalar multiple of the middle factor, which commutes). -/
noncomputable def zOp (d : ℕ) : Matrix (Fin d) (Fin d) ℂ :=
  projector01 d * ((2 : ℂ)⁻¹ • (-((destroyMat d)ᴴ * destroyMat d) * 2 + 1)) * projector01 d

/-- Projected X-like operator of `_set_up_controls`:
`projector * (a.dag() + a) / 2 * projector`. -/
noncomputable def xOp (d : ℕ) : Matrix (Fin d) (Fin d) ℂ :=
  projector01 d * ((2 : ℂ)⁻¹ • ((destroyMat d)ᴴ + destroyMat d)) * projector01 d

/-- Two-qubit drive operator `zx{m}{m+1}`: `2 * pi * tensor([z, x])`. -/
noncomputable def zxOpA (d1 d2 : ℕ) : Matrix (Fin d1 × Fin d2) (Fin d1 × Fin d2) ℂ :=
  ((2 * Real.pi : ℝ) : ℂ) • Matrix.kroneckerMap (· * ·) (zOp d1) (xOp d2)

/-- Two-qubit drive operator `zx{m+1}{m}`: `2 * pi * tensor([x, z])`. -/
noncomputable def zxOpB (d1 d2 : ℕ) : Matrix (Fin d1 × Fin d2) (Fin d1 × Fin d2) ℂ :=
  ((2 * Real.pi : ℝ) : ℂ) • Matrix.kroneckerMap (· * ·) (xOp d1) (zOp d2)

/-- Drift term of `_set_up_drift` at one site:
`2 * pi * alpha[m] / 2 * a.dag()**2 * a**2`. -/
noncomputable def driftOp (d : ℕ) (alpham : ℚ) : Matrix (Fin d) (Fin d) ℂ :=
  ((2 * Real.pi * (alpham : ℝ) / 2 : ℝ) : ℂ) • ((destroyMat d)ᴴ ^ 2 * destroyMat d ^ 2)

/-- The drift list of `_set_up_drift`: one `(operator, [m])` entry per site,
in ascending site order.  The operator's dimension is the site's own `dims[m]`,
so entries are packaged as dependent pairs. -/
noncomputable def driftList (N : ℕ) (dims : List ℕ) (alpha : List ℚ) :
    List ((Σ d : ℕ, Matrix (Fin d) (Fin d) ℂ) × List ℕ) :=
  (List.range N).map fun m =>
    (⟨dims.getD m 0, driftOp (dims.getD m 0) (alpha.getD m 0)⟩, [m])

/-- Modelled from the spec: `expand_operator` (from the operations module, not
among the sources here) embeds a local operator at site `m` of a product
space, acting as the identity on every other site: entry `(p, q)` is
`op (p m) (q m)` when `p` and `q` agree at every site other than `m`, and `0`
otherwise. -/
noncomputable def embedAt (n : ℕ) (ds : Fin n → ℕ) (m : Fin n)
    (op : Matrix (Fin (ds m)) (Fin (ds m)) ℂ) :
    Matrix ((i : Fin n) → Fin (ds i)) ((i : Fin n) → Fin (ds i)) ℂ :=
  Matrix.of fun p q =>
    op (p m) (q m) * ∏ i : Fin n, if i = m then 1 else (if p i = q i then 1 else 0)

/-- Decimal digit characters of a natural number, most significant first:
the character sequence of Python's `str(n)`. -/
def decChars (n : ℕ) : List Char :=
  if n = 0 then ['0'] else ((Nat.digits 10 n).map Nat.digitChar).reverse

/-- Decimal rendering of a natural number, Python's `str(n)`. -/
def natStr (n : ℕ) : String := ⟨decChars n⟩

/-- The control dictionary skeleton of `_set_up_controls`: channel keys and
site lists in insertion order — the `sx` loop, then the `sy` loop, then for
each adjacent pair both `zx` directions.  (The operator values are the
dimension-dependent matrices `sxOp`, `syOp`, `zxOpA`, `zxOpB`.) -/
def controlKeySites (N : ℕ) : List (String × List ℕ) :=
  ((List.range N).map fun m => ("sx" ++ natStr m, [m]))
    ++ ((List.range N).map fun m => ("sy" ++ natStr m, [m]))
    ++ ((List.range (N - 1)).map fun m =>
          [("zx" ++ natStr m ++ natStr (m + 1), [m, m + 1]),
            ("zx" ++ natStr (m + 1) ++ natStr m, [m, m + 1])]).flatten

lemma exceptBind_ok {ε α β : Type} {x : Except ε α} {f : α → Except ε β} {b : β}
    (h : x >>= f = Except.ok b) : ∃ a, x = Except.ok a ∧ f a = Except.ok b := by
  cases x with
  | error e =>
      exact absurd h (by simp [Bind.bind, Except.bind])
  | ok a =>
      exact ⟨a, rfl, by simpa [Bind.bind, Except.bind] using h⟩

lemma toArray_length {p : PValue} {n : ℕ} {xs : List ℚ}
    (h : toArray p n = Except.ok xs) : xs.length = n := by
  cases p with
  | scalar x =>
      simp only [toArray] at h
      cases h
      simp
  | list l =>
      simp only [toArray] at h
      split at h
      · cases h
        assumption
      · cases h

lemma getD_range_map (n : ℕ) (f : ℕ → ℚ) (i : ℕ) (h : i < n) :
    (((List.range n).map f).getD i 0) = f i := by
  rw [List.getD_eq_getElem?_getD]
  simp [List.getElem?_map, List.getElem?_range, h]

deriving instance DecidableEq for Except

/-- Inversion of a successful construction: the model's fields are exactly the
normalized and derived parameter lists. -/
lemma construct_ok {N : ℕ} {dims : List ℕ} {raw : RawParams} {M : SCModel}
    (h : construct N dims raw = Except.ok M) :
    M.num_qubits = N ∧ M.dims = dims
      ∧ M.alpha.length = N ∧ M.omega_single.length = N ∧ M.omega_cr.length = N
      ∧ M.wr.length = N - 1 ∧ M.g.length = 2 * (N - 1)
      ∧ N ≤ M.wq.length
      ∧ M.wq_dressed = wqDressedList N M.wq M.wr M.g
      ∧ M.wr_dressed = wrDressedList N M.wq M.wr M.g M.alpha
      ∧ M.J = Jlist N M.wq M.wr M.g
      ∧ M.zx_coeff = zxCoeffList N M.wq M.alpha M.omega_cr M.J := by
  unfold construct at h
  obtain ⟨alphaL, hA, h⟩ := exceptBind_ok h
  obtain ⟨osL, hOS, h⟩ := exceptBind_ok h
  obtain ⟨ocrL, hOCR, h⟩ := exceptBind_ok h
  obtain ⟨wrL, hWR, h⟩ := exceptBind_ok h
  obtain ⟨gL, hG, h⟩ := exceptBind_ok h
  obtain ⟨wqL, hWQ, h⟩ := exceptBind_ok h
  have hwqlen : N ≤ wqL.length := by
    cases hw : raw.wq with
    | scalar x =>
        rw [hw] at hWQ
        dsimp only at hWQ
        rcases Nat.eq_zero_or_pos N with h0 | h1
        · subst h0
          exact Nat.zero_le _
        · rw [if_neg (Nat.pos_iff_ne_zero.mp h1)] at hWQ
          exact Except.noConfusion hWQ
    | list xs =>
        rw [hw] at hWQ
        dsimp only at hWQ
        by_cases hle : N ≤ xs.length
        · rw [if_pos hle] at hWQ
          cases hWQ
          exact hle
        · rw [if_neg hle] at hWQ
          exact Except.noConfusion hWQ
  split at h
  · exact Except.noConfusion h
  · split at h
    · cases h
      refine ⟨rfl, rfl, toArray_length hA, toArray_length hOS, toArray_length hOCR,
        toArray_length hWR, toArray_length hG, hwqlen, rfl, rfl, rfl, rfl⟩
    · exact Except.noConfusion h

lemma zxCoeffList_length (N : ℕ) (wq alpha omega_cr J : List ℚ) :
    (zxCoeffList N wq alpha omega_cr J).length = 2 * (N - 1) := by
  simp [zxCoeffList, zxForward, zxBackward]
  omega

lemma zxForward_length (N : ℕ) (wq alpha omega_cr J : List ℚ) :
    (zxForward N wq alpha omega_cr J).length = N - 1 := by
  simp [zxForward]

lemma zxCoeffList_getD_fwd (N : ℕ) (wq alpha omega_cr J : List ℚ) (i : ℕ) (h : i < N - 1) :
    (zxCoeffList N wq alpha omega_cr J).getD i 0 =
      J.getD i 0 * omega_cr.getD i 0
        * (1 / (wq.getD i 0 - wq.getD (i + 1) 0 + alpha.getD i 0)
            - 1 / (wq.getD i 0 - wq.getD (i + 1) 0)) * 2 := by
  have hlen : i < (zxForward N wq alpha omega_cr J).length := by
    rw [zxForward_length]
    exact h
  rw [zxCoeffList, List.getD_eq_getElem?_getD, List.getElem?_map,
    List.getElem?_append_left hlen, zxForward, List.getElem?_map, List.getElem?_range h]
  simp

lemma zxCoeffList_getD_bwd (N : ℕ) (wq alpha omega_cr J : List ℚ) (i : ℕ)
    (h1 : 1 ≤ i) (h2 : i ≤ N - 1) :
    (zxCoeffList N wq alpha omega_cr J).getD (N - 1 + (N - 1 - i)) 0 =
      J.getD (i - 1) 0 * omega_cr.getD i 0
        * (1 / (wq.getD i 0 - wq.getD (i - 1) 0 + alpha.getD i 0)
            - 1 / (wq.getD i 0 - wq.getD (i - 1) 0)) * 2 := by
  have hge : (zxForward N wq alpha omega_cr J).length ≤ N - 1 + (N - 1 - i) := by
    rw [zxForward_length]
    omega
  rw [zxCoeffList, List.getD_eq_getElem?_getD, List.getElem?_map,
    List.getElem?_append_right hge, zxForward_length]
  have e0 : N - 1 + (N - 1 - i) - (N - 1) = N - 1 - i := by omega
  rw [e0, zxBackward, List.getElem?_map, List.getElem?_range (by omega : N - 1 - i < N - 1)]
  have e1 : N - 1 - (N - 1 - i) = i := by omega
  simp only [Option.map_some', Option.getD_some]
  rw [e1]

lemma wqDressedList_getD (N : ℕ) (wq wr g : List ℚ) (i : ℕ) (h : i < N) :
    (wqDressedList N wq wr g).getD i 0 =
      wq.getD i 0
        + (if i ≠ 0 then (g.getD (2 * i - 1) 0) ^ 2 / (wq.getD i 0 - wr.getD (i - 1) 0) else 0)
        + (if i ≠ N - 1 then (g.getD (2 * i) 0) ^ 2 / (wq.getD i 0 - wr.getD i 0) else 0) := by
  simp only [wqDressedList]
  exact getD_range_map _ _ _ h

lemma wrDressedList_getD (N : ℕ) (wq wr g alpha : List ℚ) (i : ℕ) (h : i < N - 1) :
    (wrDressedList N wq wr g alpha).getD i 0 =
      wr.getD i 0
        - (g.getD (2 * i) 0) ^ 2 / (wq.getD i 0 - wr.getD i 0 + alpha.getD i 0)
        - (g.getD (2 * i + 1) 0) ^ 2 / (wq.getD (i + 1) 0 - wr.getD i 0 + alpha.getD i 0) := by
  simp only [wrDressedList]
  exact getD_range_map _ _ _ h

lemma Jlist_getD (N : ℕ) (wq wr g : List ℚ) (i : ℕ) (h : i < N - 1) :
    (Jlist N wq wr g).getD i 0 =
      g.getD (2 * i) 0 * g.getD (2 * i + 1) 0
          * (wq.getD i 0 + wq.getD (i + 1) 0 - 2 * wr.getD i 0)
        / 2 / (wq.getD i 0 - wr.getD i 0) / (wq.getD (i + 1) 0 - wr.getD i 0) := by
  simp only [Jlist]
  exact getD_range_map _ _ _ h

/-- Evaluation of the construction at the concrete witness parameters. -/
lemma constructA_eval : construct 2 [3, 3] wRawA = Except.ok wModelA := by
  norm_num [construct, toArray, wRawA, wModelA, wqDressedList, wrDressedList, Jlist,
    zxForward, zxBackward, zxCoeffList, List.range_succ, List.replicate_succ,
    List.any_cons, List.any_nil, beq_iff_eq, Bind.bind, Except.bind]

/-- C1: for every successfully constructed model with `num_qubits = N ≥ 1`, the
derived `zx_coeff` sequence is computed in two passes: the forward pass stores,
at positions `i = 0..N-2`, the value `J[i]*omega_cr[i]*(1/(wq[i]-wq[i+1]+alpha[i])
- 1/(wq[i]-wq[i+1]))`; the backward pass (loop index `i = N-1` down to `1`,
stored after the forward block) stores `J[i-1]*omega_cr[i]*(1/(wq[i]-wq[i-1]+alpha[i])
- 1/(wq[i]-wq[i-1]))`; the whole concatenated sequence is multiplied by 2 and
has length `2*(N-1)`. -/
theorem c1_zx_coeff_two_pass {N : ℕ} {dims : List ℕ} {raw : RawParams} {M : SCModel}
    (h : construct N dims raw = Except.ok M) (_hN : 1 ≤ N) :
    M.zx_coeff.length = 2 * (N - 1)
      ∧ (∀ i : ℕ, i < N - 1 →
          M.zx_coeff.getD i 0 =
            M.J.getD i 0 * M.omega_cr.getD i 0
              * (1 / (M.wq.getD i 0 - M.wq.getD (i + 1) 0 + M.alpha.getD i 0)
                  - 1 / (M.wq.getD i 0 - M.wq.getD (i + 1) 0)) * 2)
      ∧ (∀ i : ℕ, 1 ≤ i → i ≤ N - 1 →
          M.zx_coeff.getD (N - 1 + (N - 1 - i)) 0 =
            M.J.getD (i - 1) 0 * M.omega_cr.getD i 0
              * (1 / (M.wq.getD i 0 - M.wq.getD (i - 1) 0 + M.alpha.getD i 0)
                  - 1 / (M.wq.getD i 0 - M.wq.getD (i - 1) 0)) * 2) := by
  obtain ⟨-, -, -, -, -, -, -, -, -, -, -, hzx⟩ := construct_ok h
  refine ⟨?_, ?_, ?_⟩
  · rw [hzx, zxCoeffList_length]
  · intro i hi
    rw [hzx, zxCoeffList_getD_fwd _ _ _ _ _ _ hi]
  · intro i h1 h2
    rw [hzx, zxCoeffList_getD_bwd _ _ _ _ _ _ h1 h2]

/-- Witness for C1 at `N = 2` with concrete parameters. -/
theorem c1_witness :
    construct 2 [3, 3] wRawA = Except.ok wModelA ∧ (1 : ℕ) ≤ 2 ∧
      wModelA.zx_coeff.getD 0 0 =
        wModelA.J.getD 0 0 * wModelA.omega_cr.getD 0 0
          * (1 / (wModelA.wq.getD 0 0 - wModelA.wq.getD 1 0 + wModelA.alpha.getD 0 0)
              - 1 / (wModelA.wq.getD 0 0 - wModelA.wq.getD 1 0)) * 2 :=
  ⟨constructA_eval, by decide, (c1_zx_coeff_two_pass constructA_eval (by decide)).2.1 0 (by decide)⟩

/-- C2: for every successfully constructed model with `num_qubits = N ≥ 1`, the
derived parameters satisfy the closed-form second-order formulas: `wq_dressed[i]`
gets the left shift `g[2i-1]^2/(wq[i]-wr[i-1])` exactly when `i > 0` and the
right shift `g[2i]^2/(wq[i]-wr[i])` exactly when `i < N-1`; `wr_dressed[i] =
wr[i] - g[2i]^2/(wq[i]-wr[i]+alpha[i]) - g[2i+1]^2/(wq[i+1]-wr[i]+alpha[i])`;
and `J[i] = g[2i]*g[2i+1]*(wq[i]+wq[i+1]-2*wr[i]) / 2 / (wq[i]-wr[i]) /
(wq[i+1]-wr[i])`. -/
theorem c2_dressed_formulas {N : ℕ} {dims : List ℕ} {raw : RawParams} {M : SCModel}
    (h : construct N dims raw = Except.ok M) (_hN : 1 ≤ N) :
    (∀ i : ℕ, i < N →
        M.wq_dressed.getD i 0 =
          M.wq.getD i 0
            + (if 0 < i then
                (M.g.getD (2 * i - 1) 0) ^ 2 / (M.wq.getD i 0 - M.wr.getD (i - 1) 0) else 0)
            + (if i < N - 1 then
                (M.g.getD (2 * i) 0) ^ 2 / (M.wq.getD i 0 - M.wr.getD i 0) else 0))
      ∧ (∀ i : ℕ, i < N - 1 →
          M.wr_dressed.getD i 0 =
            M.wr.getD i 0
              - (M.g.getD (2 * i) 0) ^ 2
                  / (M.wq.getD i 0 - M.wr.getD i 0 + M.alpha.getD i 0)
              - (M.g.getD (2 * i + 1) 0) ^ 2
                  / (M.wq.getD (i + 1) 0 - M.wr.getD i 0 + M.alpha.getD i 0))
      ∧ (∀ i : ℕ, i < N - 1 →
          M.J.getD i 0 =
            M.g.getD (2 * i) 0 * M.g.getD (2 * i + 1) 0
                * (M.wq.getD i 0 + M.wq.getD (i + 1) 0 - 2 * M.wr.getD i 0)
              / 2 / (M.wq.getD i 0 - M.wr.getD i 0)
              / (M.wq.getD (i + 1) 0 - M.wr.getD i 0)) := by
  obtain ⟨-, -, -, -, -, -, -, -, hwqd, hwrd, hJ, -⟩ := construct_ok h
  refine ⟨?_, ?_, ?_⟩
  · intro i hi
    rw [hwqd, wqDressedList_getD _ _ _ _ _ hi]
    split_ifs <;> first | rfl | omega
  · intro i hi
    rw [hwrd, wrDressedList_getD _ _ _ _ _ _ hi]
  · intro i hi
    rw [hJ, Jlist_getD _ _ _ _ _ hi]

/-- Witness for C2 at `N = 2` with concrete parameters. -/
theorem c2_witness :
    construct 2 [3, 3] wRawA = Except.ok wModelA ∧ (1 : ℕ) ≤ 2 ∧
      wModelA.J.getD 0 0 =
        wModelA.g.getD 0 0 * wModelA.g.getD 1 0
            * (wModelA.wq.getD 0 0 + wModelA.wq.getD 1 0 - 2 * wModelA.wr.getD 0 0)
          / 2 / (wModelA.wq.getD 0 0 - wModelA.wr.getD 0 0)
          / (wModelA.wq.getD 1 0 - wModelA.wr.getD 0 0) :=
  ⟨constructA_eval, by decide, (c2_dressed_formulas constructA_eval (by decide)).2.2 0 (by decide)⟩

lemma Jlist_length (N : ℕ) (wq wr g : List ℚ) : (Jlist N wq wr g).length = N - 1 := by
  simp [Jlist]

lemma wrDressedList_length (N : ℕ) (wq wr g alpha : List ℚ) :
    (wrDressedList N wq wr g alpha).length = N - 1 := by
  simp [wrDressedList]

lemma wqDressedList_length (N : ℕ) (wq wr g : List ℚ) :
    (wqDressedList N wq wr g).length = N := by
  simp [wqDressedList]

/-- A successful construction leaves a caller-supplied `wq` list untouched. -/
lemma construct_ok_wq {N : ℕ} {dims : List ℕ} {raw : RawParams} {M : SCModel}
    (h : construct N dims raw = Except.ok M) {xs : List ℚ}
    (hw : raw.wq = PValue.list xs) : M.wq = xs := by
  unfold construct at h
  obtain ⟨alphaL, hA, h⟩ := exceptBind_ok h
  obtain ⟨osL, hOS, h⟩ := exceptBind_ok h
  obtain ⟨ocrL, hOCR, h⟩ := exceptBind_ok h
  obtain ⟨wrL, hWR, h⟩ := exceptBind_ok h
  obtain ⟨gL, hG, h⟩ := exceptBind_ok h
  obtain ⟨wqL, hWQ, h⟩ := exceptBind_ok h
  rw [hw] at hWQ
  dsimp only at hWQ
  have hwq : wqL = xs := by
    by_cases hle : N ≤ xs.length
    · rw [if_pos hle] at hWQ
      cases hWQ
      rfl
    · rw [if_neg hle] at hWQ
      exact Except.noConfusion hWQ
  split at h
  · exact Except.noConfusion h
  · split at h
    · cases h
      exact hwq
    · exact Except.noConfusion h

/-- Evaluation of the construction at the over-long `wq` input. -/
lemma constructLong_eval : construct 2 [3, 3] wRawLong = Except.ok wModelLong := by
  norm_num [construct, toArray, wRawLong, defaultParams, defaultWq, wModelLong,
    wqDressedList, wrDressedList, Jlist, zxForward, zxBackward, zxCoeffList,
    List.range_succ, List.replicate_succ, Bind.bind, Except.bind]

/-- Evaluation of the construction at the exactly resonant input. -/
lemma constructRes_eval : construct 2 [3, 3] wRawRes = Except.ok wModelRes := by
  norm_num [construct, toArray, wRawRes, defaultParams, defaultWq, wModelRes,
    wqDressedList, wrDressedList, Jlist, zxForward, zxBackward, zxCoeffList,
    List.range_succ, List.replicate_succ, Bind.bind, Except.bind]

/-- Evaluation of the construction at the reflection-symmetric input. -/
lemma constructSym_eval : construct 3 [3, 3, 3] wRawSym = Except.ok wModelSym := by
  norm_num [construct, toArray, wRawSym, defaultParams, defaultWq, wModelSym,
    wqDressedList, wrDressedList, Jlist, zxForward, zxBackward, zxCoeffList,
    List.range_succ, List.replicate_succ, Bind.bind, Except.bind]

/-- Evaluation of the construction at `num_qubits = 0`. -/
lemma constructZero_eval : construct 0 [] (defaultParams 0) = Except.ok wModelZero := by
  norm_num [construct, toArray, defaultParams, defaultWq, wModelZero,
    wqDressedList, wrDressedList, Jlist, zxForward, zxBackward, zxCoeffList,
    List.any_nil, Bind.bind, Except.bind]

/-- Evaluation of the construction at a `dims` list shorter than `num_qubits`. -/
lemma constructShortDims_eval :
    construct 2 [3] (defaultParams 2) = Except.error BuildError.indexError := by
  norm_num [construct, toArray, defaultParams, defaultWq, List.replicate_succ,
    List.range_succ, List.any_cons, List.any_nil, beq_iff_eq,
    Bind.bind, Except.bind]

lemma defaultWq_length (n : ℕ) : (defaultWq n).length = n := by
  simp only [defaultWq, List.length_take, List.length_flatten, List.map_replicate,
    List.sum_replicate, List.length_cons, List.length_nil, smul_eq_mul]
  omega

/-- C5 counterexample: with `num_qubits = 2` and `wq` supplied as the list
`[5, 6, 7]` of length 3 (adjacent entries distinct, so nothing raises),
construction succeeds and the stored `wq` still has length 3, not
`num_qubits`: the normalization step never touches `wq`. -/
theorem c5_counterexample :
    construct 2 [3, 3] wRawLong = Except.ok wModelLong
      ∧ wModelLong.wq.length = 3 ∧ wModelLong.wq.length ≠ 2 :=
  ⟨constructLong_eval, by norm_num [wModelLong], by norm_num [wModelLong]⟩

/-- C5 (amended): after a successful construction every parameter except `wq`
has the required normalized length (`alpha`, `omega_single`, `omega_cr`: `N`;
`wr`, `J`, `wr_dressed`: `N-1`; `g`: `2(N-1)`; `wq_dressed`: `N`; `zx_coeff`:
`2(N-1)`); `wq` is kept exactly as supplied — construction requires
`len(wq) ≥ N` and, for a list-supplied `wq`, distinct adjacent entries (the
pure-Python `1/(wq[i]-wq[i+1])` raises `ZeroDivisionError` otherwise) — and
only the default `wq` is guaranteed to have length `N`. -/
theorem c5_normalized_lengths {N : ℕ} {dims : List ℕ} {raw : RawParams} {M : SCModel}
    (h : construct N dims raw = Except.ok M) :
    M.alpha.length = N ∧ M.omega_single.length = N ∧ M.omega_cr.length = N
      ∧ M.wr.length = N - 1 ∧ M.g.length = 2 * (N - 1)
      ∧ M.J.length = N - 1 ∧ M.wr_dressed.length = N - 1
      ∧ M.wq_dressed.length = N ∧ M.zx_coeff.length = 2 * (N - 1)
      ∧ N ≤ M.wq.length
      ∧ (∀ xs : List ℚ, raw.wq = PValue.list xs → M.wq = xs)
      ∧ (defaultWq N).length = N := by
  obtain ⟨-, -, hA, hOS, hOCR, hWR, hG, hwq, hwqd, hwrd, hJ, hzx⟩ := construct_ok h
  refine ⟨hA, hOS, hOCR, hWR, hG, ?_, ?_, ?_, ?_, hwq, ?_, defaultWq_length N⟩
  · rw [hJ, Jlist_length]
  · rw [hwrd, wrDressedList_length]
  · rw [hwqd, wqDressedList_length]
  · rw [hzx, zxCoeffList_length]
  · intro xs hx
    exact construct_ok_wq h hx

/-- Witness for the amended C5 at the over-long `wq` input. -/
theorem c5_witness :
    construct 2 [3, 3] wRawLong = Except.ok wModelLong
      ∧ wModelLong.alpha.length = 2 ∧ wModelLong.wq = [5, 6, 7] :=
  ⟨constructLong_eval, (c5_normalized_lengths constructLong_eval).1,
    (c5_normalized_lengths constructLong_eval).2.2.2.2.2.2.2.2.2.2.1 [5, 6, 7] rfl⟩

/-- C4 counterexample: construction with `num_qubits = 0` (a non-positive
count) succeeds, returning a degenerate empty model, instead of being detected
eagerly and raised as a configuration error. -/
theorem c4_counterexample : construct 0 [] (defaultParams 0) = Except.ok wModelZero :=
  constructZero_eval

/-- C4 (amended): only the parameters routed through the (spec-modelled)
broadcasting helper are validated eagerly — a wrong-length list, here `alpha`,
gives a configuration error; a non-positive `num_qubits` is not rejected
(`num_qubits = 0` builds an empty model with no error), and a `dims` list
shorter than `num_qubits` surfaces as an index error during operator set-up,
not as a configuration error; a failed construction exposes no model. -/
theorem c4_validation {N : ℕ} {dims : List ℕ} {raw : RawParams} {xs : List ℚ}
    (hw : raw.alpha = PValue.list xs) (hlen : xs.length ≠ N) :
    construct N dims raw = Except.error BuildError.configurationError
      ∧ construct 0 [] (defaultParams 0) = Except.ok wModelZero
      ∧ construct 2 [3] (defaultParams 2) = Except.error BuildError.indexError := by
  refine ⟨?_, constructZero_eval, constructShortDims_eval⟩
  have hta : toArray raw.alpha N = Except.error BuildError.configurationError := by
    rw [hw]
    simp [toArray, hlen]
  simp [construct, hta, Bind.bind, Except.bind]

/-- Witness for the amended C4: a length-1 `alpha` list with `num_qubits = 3`. -/
theorem c4_witness :
    wRawBadAlpha.alpha = PValue.list [1] ∧ [(1 : ℚ)].length ≠ 3
      ∧ construct 3 [3, 3, 3] wRawBadAlpha = Except.error BuildError.configurationError :=
  ⟨rfl, by decide, (c4_validation rfl (by decide)).1⟩

/-- C3 counterexample: at an exactly resonant configuration
(`wq[0] = wr[0] = 5.96`) construction does not fail with any error: it returns
a model, the `J` entry having been computed through a division by the zero
detuning (`[0]` here under the `x / 0 = 0` convention of the embedding; the
floating-point code produces non-finite values instead). -/
theorem c3_counterexample :
    construct 2 [3, 3] wRawRes = Except.ok wModelRes
      ∧ wModelRes.wq.getD 0 0 - wModelRes.wr.getD 0 0 = 0 :=
  ⟨constructRes_eval, by norm_num [wModelRes]⟩

/-- C3 (amended): construction performs no numeric-degeneracy check: whenever
the supplied lists have the right shapes and the list-supplied `wq` has
distinct adjacent entries, construction succeeds for every parameter
valuation — including qubit-resonator resonance `wq[i] = wr[i]` — rather than
failing loudly, and the derived parameters are computed through the degenerate
divisions.  The only value-dependent failure is the incidental
`ZeroDivisionError` of the pure-Python `1/(wq[i]-wq[i+1])` at equal adjacent
`wq` entries, shown by the second conjunct; no `NumericDegeneracy` error
exists. -/
theorem c3_no_degeneracy_check (N : ℕ) (dims : List ℕ)
    (wqL wrL aL gL osL ocrL : List ℚ)
    (hwq : N ≤ wqL.length)
    (hadj : ∀ i, i < N - 1 → wqL.getD i 0 ≠ wqL.getD (i + 1) 0)
    (ha : aL.length = N) (hos : osL.length = N)
    (hocr : ocrL.length = N) (hwr : wrL.length = N - 1)
    (hg : gL.length = 2 * (N - 1)) (hdims : N ≤ dims.length) :
    (construct N dims
        { wq := PValue.list wqL, wr := PValue.list wrL, alpha := PValue.list aL
          g := PValue.list gL, omega_single := PValue.list osL
          omega_cr := PValue.list ocrL }).isOk = true
    ∧ construct 2 [3, 3]
        { wq := PValue.list [5, 5], wr := PValue.list [149/25]
          alpha := PValue.list [-3/10, -3/10], g := PValue.list [1/10, 1/10]
          omega_single := PValue.list [1/100, 1/100]
          omega_cr := PValue.list [1/100, 1/100] }
        = Except.error BuildError.zeroDivisionError := by
  constructor
  · have hguard : ¬ ∃ x, x < N - 1 ∧ wqL[x]?.getD 0 = wqL[x + 1]?.getD 0 := by
      rintro ⟨x, hx, he⟩
      exact hadj x hx (by simpa [List.getD_eq_getElem?_getD] using he)
    simp [construct, toArray, ha, hos, hocr, hwr, hg, hwq, hdims, hguard,
      Bind.bind, Except.bind, Except.isOk, Except.toBool]
  · norm_num [construct, toArray, List.range_succ, List.any_cons, List.any_nil,
      beq_iff_eq, Bind.bind, Except.bind]

/-- Witness for the amended C3 at the exactly resonant all-list input. -/
theorem c3_witness :
    (2 : ℕ) ≤ [(149 : ℚ)/25, 5].length
      ∧ (construct 2 [3, 3]
          { wq := PValue.list [149/25, 5], wr := PValue.list [149/25]
            alpha := PValue.list [-3/10, -3/10], g := PValue.list [1/10, 1/10]
            omega_single := PValue.list [1/100, 1/100]
            omega_cr := PValue.list [1/100, 1/100] }).isOk = true :=
  ⟨by decide,
    (c3_no_degeneracy_check 2 [3, 3] [149/25, 5] [149/25] [-3/10, -3/10] [1/10, 1/10]
      [1/100, 1/100] [1/100, 1/100] (by decide)
      (by intro i hi; interval_cases i; norm_num)
      (by decide) (by decide) (by decide) (by decide) (by decide) (by decide)).1⟩

/-- C9 counterexample: the reflection-symmetric configuration `wq = [5, 6, 5]`
(uniform `wr`, `g`, `alpha`, `omega_cr`, `num_qubits = 3`) violates the claimed
mirror symmetry of `zx_coeff`: `|zx_coeff[0]| ≠ |zx_coeff[2*(3-1)-1-0]|`, i.e.
`|23/41600| ≠ |23/22400|`. -/
theorem c9_counterexample :
    construct 3 [3, 3, 3] wRawSym = Except.ok wModelSym
      ∧ wModelSym.wq.getD 0 0 = wModelSym.wq.getD 2 0
      ∧ wModelSym.wr.getD 0 0 = wModelSym.wr.getD 1 0
      ∧ wModelSym.g.getD 0 0 = wModelSym.g.getD 3 0
      ∧ wModelSym.g.getD 1 0 = wModelSym.g.getD 2 0
      ∧ wModelSym.alpha.getD 0 0 = wModelSym.alpha.getD 2 0
      ∧ wModelSym.omega_cr.getD 0 0 = wModelSym.omega_cr.getD 2 0
      ∧ |wModelSym.zx_coeff.getD 0 0| ≠ |wModelSym.zx_coeff.getD 3 0| := by
  refine ⟨constructSym_eval, by norm_num [wModelSym], by norm_num [wModelSym],
    by norm_num [wModelSym], by norm_num [wModelSym], by norm_num [wModelSym],
    by norm_num [wModelSym], ?_⟩
  norm_num [wModelSym]
  rw [abs_of_pos (show (0 : ℚ) < 23/41600 by norm_num),
    abs_of_pos (show (0 : ℚ) < 23/22400 by norm_num)]
  norm_num

/-- C9 (amended): for a uniform chain (all in-range entries of `wq` equal,
likewise `wr` and `g`) every `J[i]` is identical; and for a reflection-symmetric
parameter assignment the backward half of `zx_coeff` repeats the forward half
entrywise, `zx_coeff[(N-1)+i] = zx_coeff[i]` (the mirror pairing
`|zx_coeff[i]| = |zx_coeff[2(N-1)-1-i]|` claimed originally does not hold). -/
theorem c9_symmetry (N : ℕ) (wq wr g alpha ocr : List ℚ) :
    ((∀ a, a < N → ∀ b, b < N → wq.getD a 0 = wq.getD b 0) →
      (∀ a, a < N - 1 → ∀ b, b < N - 1 → wr.getD a 0 = wr.getD b 0) →
      (∀ a, a < 2 * (N - 1) → ∀ b, b < 2 * (N - 1) → g.getD a 0 = g.getD b 0) →
      ∀ i j : ℕ, i < N - 1 → j < N - 1 →
        (Jlist N wq wr g).getD i 0 = (Jlist N wq wr g).getD j 0)
    ∧ ((∀ i, i < N → wq.getD i 0 = wq.getD (N - 1 - i) 0) →
      (∀ i, i < N - 1 → wr.getD i 0 = wr.getD (N - 2 - i) 0) →
      (∀ j, j < 2 * (N - 1) → g.getD j 0 = g.getD (2 * (N - 1) - 1 - j) 0) →
      (∀ i, i < N → alpha.getD i 0 = alpha.getD (N - 1 - i) 0) →
      (∀ i, i < N → ocr.getD i 0 = ocr.getD (N - 1 - i) 0) →
      ∀ i, i < N - 1 →
        (zxCoeffList N wq alpha ocr (Jlist N wq wr g)).getD (N - 1 + i) 0 =
          (zxCoeffList N wq alpha ocr (Jlist N wq wr g)).getD i 0) := by
  constructor
  · intro hwq hwr hg i j hi hj
    rw [Jlist_getD _ _ _ _ _ hi, Jlist_getD _ _ _ _ _ hj,
      hwq i (by omega) 0 (by omega), hwq (i + 1) (by omega) 0 (by omega),
      hwq j (by omega) 0 (by omega), hwq (j + 1) (by omega) 0 (by omega),
      hwr i (by omega) 0 (by omega), hwr j (by omega) 0 (by omega),
      hg (2 * i) (by omega) 0 (by omega), hg (2 * i + 1) (by omega) 0 (by omega),
      hg (2 * j) (by omega) 0 (by omega), hg (2 * j + 1) (by omega) 0 (by omega)]
  · intro hr1 hr2 hr3 hr4 hr5 i hi
    have hpos : N - 1 + (N - 1 - (N - 1 - i)) = N - 1 + i := by omega
    rw [← hpos,
      zxCoeffList_getD_bwd N wq alpha ocr (Jlist N wq wr g) (N - 1 - i)
        (by omega) (by omega),
      zxCoeffList_getD_fwd N wq alpha ocr (Jlist N wq wr g) i hi]
    have hOC : ocr.getD (N - 1 - i) 0 = ocr.getD i 0 := by
      have t := hr5 (N - 1 - i) (by omega)
      rwa [show N - 1 - (N - 1 - i) = i from by omega] at t
    have hAL : alpha.getD (N - 1 - i) 0 = alpha.getD i 0 := by
      have t := hr4 (N - 1 - i) (by omega)
      rwa [show N - 1 - (N - 1 - i) = i from by omega] at t
    have hWQ1 : wq.getD (N - 1 - i) 0 = wq.getD i 0 := by
      have t := hr1 (N - 1 - i) (by omega)
      rwa [show N - 1 - (N - 1 - i) = i from by omega] at t
    have hWQ2 : wq.getD (N - 2 - i) 0 = wq.getD (i + 1) 0 := by
      have t := hr1 (N - 2 - i) (by omega)
      rwa [show N - 1 - (N - 2 - i) = i + 1 from by omega] at t
    have hJJ : (Jlist N wq wr g).getD (N - 2 - i) 0 = (Jlist N wq wr g).getD i 0 := by
      rw [Jlist_getD _ _ _ _ _ (show N - 2 - i < N - 1 by omega), Jlist_getD _ _ _ _ _ hi]
      have hG1 : g.getD (2 * (N - 2 - i)) 0 = g.getD (2 * i + 1) 0 := by
        have t := hr3 (2 * (N - 2 - i)) (by omega)
        rwa [show 2 * (N - 1) - 1 - 2 * (N - 2 - i) = 2 * i + 1 from by omega] at t
      have hG2 : g.getD (2 * (N - 2 - i) + 1) 0 = g.getD (2 * i) 0 := by
        have t := hr3 (2 * (N - 2 - i) + 1) (by omega)
        rwa [show 2 * (N - 1) - 1 - (2 * (N - 2 - i) + 1) = 2 * i from by omega] at t
      have hWQ3 : wq.getD (N - 2 - i + 1) 0 = wq.getD i 0 := by
        rw [show N - 2 - i + 1 = N - 1 - i from by omega]
        exact hWQ1
      have hWR : wr.getD (N - 2 - i) 0 = wr.getD i 0 := by
        have t := hr2 (N - 2 - i) (by omega)
        rwa [show N - 2 - (N - 2 - i) = i from by omega] at t
      rw [hG1, hG2, hWQ3, hWQ2, hWR]
      ring
    rw [show N - 1 - i - 1 = N - 2 - i from by omega, hJJ, hOC, hAL, hWQ1, hWQ2]

/-- Witness for the amended C9: a uniform 3-qubit chain has a constant `J`. -/
theorem c9_witness :
    (Jlist 3 [5, 5, 5] [1, 1] [2, 2, 2, 2]).getD 0 0
      = (Jlist 3 [5, 5, 5] [1, 1] [2, 2, 2, 2]).getD 1 0 :=
  (c9_symmetry 3 [5, 5, 5] [1, 1] [2, 2, 2, 2] [] []).1
    (by intro a ha b hb; interval_cases a <;> interval_cases b <;> simp)
    (by intro a ha b hb; interval_cases a <;> interval_cases b <;> simp)
    (by intro a ha b hb; interval_cases a <;> interval_cases b <;> simp)
    0 1 (by decide) (by decide)

lemma projector01_apply (d : ℕ) (i j : Fin d) :
    projector01 d i j = if (i : ℕ) = (j : ℕ) ∧ (i : ℕ) < 2 then 1 else 0 := by
  simp only [projector01, ketProj, Matrix.add_apply, Matrix.of_apply, ket]
  split_ifs <;> simp_all <;> omega

lemma proj_mul_apply (d : ℕ) (M : Matrix (Fin d) (Fin d) ℂ) (i l : Fin d) :
    (projector01 d * M) i l = if (i : ℕ) < 2 then M i l else 0 := by
  rw [Matrix.mul_apply]
  by_cases hi : (i : ℕ) < 2
  · rw [Finset.sum_eq_single i]
    · simp [projector01_apply, hi]
    · intro k _ hk
      have : (i : ℕ) ≠ (k : ℕ) := fun hv => hk ((Fin.val_eq_val k i).mp hv.symm)
      simp [projector01_apply, this]
    · simp
  · rw [if_neg hi, Finset.sum_eq_zero]
    intro k _
    simp [projector01_apply, hi]

lemma mul_proj_apply (d : ℕ) (M : Matrix (Fin d) (Fin d) ℂ) (l j : Fin d) :
    (M * projector01 d) l j = if (j : ℕ) < 2 then M l j else 0 := by
  rw [Matrix.mul_apply]
  by_cases hj : (j : ℕ) < 2
  · rw [Finset.sum_eq_single j]
    · simp [projector01_apply, hj]
    · intro k _ hk
      have : (k : ℕ) ≠ (j : ℕ) := fun hv => hk ((Fin.val_eq_val k j).mp hv)
      simp [projector01_apply, this]
    · simp
  · rw [if_neg hj, Finset.sum_eq_zero]
    intro k _
    by_cases hkj : (k : ℕ) = (j : ℕ)
    · simp [projector01_apply, hkj, fun h => hj (hkj ▸ h)]
      intro hk2
      omega
    · simp [projector01_apply, hkj]

lemma sandwich_apply (d : ℕ) (M : Matrix (Fin d) (Fin d) ℂ) (i j : Fin d) :
    (projector01 d * M * projector01 d) i j =
      if (i : ℕ) < 2 ∧ (j : ℕ) < 2 then M i j else 0 := by
  rw [mul_proj_apply, proj_mul_apply]
  split_ifs <;> first | rfl | omega

lemma adag_a_apply (d : ℕ) (i j : Fin d) :
    ((destroyMat d)ᴴ * destroyMat d) i j = if i = j then (((i : ℕ) : ℝ) : ℂ) else 0 := by
  rw [Matrix.mul_apply]
  by_cases hij : i = j
  · subst hij
    rw [if_pos rfl]
    by_cases hi0 : (i : ℕ) = 0
    · rw [Finset.sum_eq_zero (fun k _ => by
        simp [Matrix.conjTranspose_apply, destroyMat, hi0])]
      simp [hi0]
    · have hlt := i.isLt
      set k0 : Fin d := ⟨(i : ℕ) - 1, by omega⟩ with hk0
      have hcond : (i : ℕ) = (k0 : ℕ) + 1 := by
        rw [hk0]
        simp
        omega
      have hz : ∀ k ∈ Finset.univ, k ≠ k0 →
          (destroyMat d)ᴴ i k * destroyMat d k i = 0 := by
        intro k _ hkne
        have hne : (i : ℕ) ≠ (k : ℕ) + 1 := by
          intro hv
          apply hkne
          apply Fin.ext
          rw [hk0]
          simp
          omega
        simp [destroyMat, hne]
      rw [Finset.sum_eq_single k0 hz (by simp)]
      simp only [Matrix.conjTranspose_apply, destroyMat, Matrix.of_apply, if_pos hcond]
      rw [Complex.star_def, Complex.conj_ofReal, ← Complex.ofReal_mul,
        Real.mul_self_sqrt (Nat.cast_nonneg _)]
  · rw [if_neg hij]
    refine Finset.sum_eq_zero ?_
    intro k _
    have hno : ¬((i : ℕ) = (k : ℕ) + 1 ∧ (j : ℕ) = (k : ℕ) + 1) := by
      rintro ⟨h1, h2⟩
      exact hij (Fin.ext (h1.trans h2.symm))
    simp only [Matrix.conjTranspose_apply, destroyMat, Matrix.of_apply]
    split_ifs with a b <;> simp_all

lemma zOp_apply (d : ℕ) (i j : Fin d) :
    zOp d i j = if i = j ∧ (i : ℕ) < 2 then (1 - 2 * ((i : ℕ) : ℂ)) / 2 else 0 := by
  rw [zOp, sandwich_apply]
  have hmid : (((2 : ℂ)⁻¹ • (-((destroyMat d)ᴴ * destroyMat d) * 2 + 1) :
        Matrix (Fin d) (Fin d) ℂ)) i j
      = if i = j then (1 - 2 * ((i : ℕ) : ℂ)) / 2 else 0 := by
    simp only [Matrix.smul_apply, Matrix.add_apply, mul_two, Matrix.neg_apply,
      adag_a_apply, Matrix.one_apply, smul_eq_mul]
    split_ifs <;> push_cast <;> ring
  rw [hmid]
  by_cases h1 : i = j <;> by_cases h2 : (i : ℕ) < 2 <;> by_cases h3 : (j : ℕ) < 2 <;>
    simp_all

lemma xOp_apply (d : ℕ) (i j : Fin d) :
    xOp d i j = if ((i : ℕ) = 0 ∧ (j : ℕ) = 1) ∨ ((i : ℕ) = 1 ∧ (j : ℕ) = 0)
      then (1 / 2 : ℂ) else 0 := by
  rw [xOp, sandwich_apply]
  have hmid : (((2 : ℂ)⁻¹ • ((destroyMat d)ᴴ + destroyMat d) :
        Matrix (Fin d) (Fin d) ℂ)) i j
      = (2 : ℂ)⁻¹ * ((if (i : ℕ) = (j : ℕ) + 1 then ((Real.sqrt (i : ℕ) : ℝ) : ℂ) else 0)
          + (if (j : ℕ) = (i : ℕ) + 1 then ((Real.sqrt (j : ℕ) : ℝ) : ℂ) else 0)) := by
    simp only [Matrix.smul_apply, Matrix.add_apply, Matrix.conjTranspose_apply,
      destroyMat, Matrix.of_apply, smul_eq_mul]
    split_ifs <;> simp [Complex.star_def, Complex.conj_ofReal]
  rw [hmid]
  by_cases h2 : (i : ℕ) < 2 <;> by_cases h3 : (j : ℕ) < 2
  · rw [if_pos ⟨h2, h3⟩]
    rcases (by omega : (i : ℕ) = 0 ∨ (i : ℕ) = 1) with hi | hi <;>
      rcases (by omega : (j : ℕ) = 0 ∨ (j : ℕ) = 1) with hj | hj <;>
      simp [hi, hj, Real.sqrt_one]
  · rw [if_neg (fun hc => h3 hc.2), if_neg (by omega)]
  · rw [if_neg (fun hc => h2 hc.1), if_neg (by omega)]
  · rw [if_neg (fun hc => h2 hc.1), if_neg (by omega)]

lemma zOp_leak (d : ℕ) (i j : Fin d) (h : 2 ≤ (i : ℕ) ∨ 2 ≤ (j : ℕ)) : zOp d i j = 0 := by
  rw [zOp_apply, if_neg]
  rintro ⟨rfl, h2⟩
  omega

lemma xOp_leak (d : ℕ) (i j : Fin d) (h : 2 ≤ (i : ℕ) ∨ 2 ≤ (j : ℕ)) : xOp d i j = 0 := by
  rw [xOp_apply, if_neg]
  rintro (⟨h1, h2⟩ | ⟨h1, h2⟩) <;> omega

lemma realSmul_hermitian {ι : Type} {M : Matrix ι ι ℂ}
    (hM : M.IsHermitian) (r : ℝ) : (((r : ℝ) : ℂ) • M).IsHermitian := by
  rw [Matrix.IsHermitian, Matrix.conjTranspose_smul, hM.eq]
  congr 1
  simp

lemma ketProj_hermitian (d n : ℕ) : (ketProj d n).IsHermitian := by
  ext i j
  simp only [Matrix.conjTranspose_apply, ketProj, Matrix.of_apply, star_mul', star_star]
  ring

lemma projector01_hermitian (d : ℕ) : (projector01 d).IsHermitian :=
  (ketProj_hermitian d 0).add (ketProj_hermitian d 1)

lemma sandwichP_hermitian {d : ℕ} {M : Matrix (Fin d) (Fin d) ℂ} (hM : M.IsHermitian) :
    (projector01 d * M * projector01 d).IsHermitian := by
  have h := Matrix.isHermitian_conjTranspose_mul_mul (projector01 d) hM
  rwa [(projector01_hermitian d).eq] at h

lemma zOp_hermitian (d : ℕ) : (zOp d).IsHermitian := by
  refine sandwichP_hermitian ?_
  rw [Matrix.IsHermitian]
  have hn : ((destroyMat d)ᴴ * destroyMat d).IsHermitian :=
    Matrix.isHermitian_transpose_mul_self (destroyMat d)
  rw [Matrix.conjTranspose_smul, Matrix.conjTranspose_add, Matrix.conjTranspose_one,
    mul_two, Matrix.conjTranspose_add, Matrix.conjTranspose_neg, hn.eq]
  rw [← mul_two]
  congr 1
  simp

lemma xOp_hermitian (d : ℕ) : (xOp d).IsHermitian := by
  refine sandwichP_hermitian ?_
  rw [Matrix.IsHermitian, Matrix.conjTranspose_smul, Matrix.conjTranspose_add,
    Matrix.conjTranspose_conjTranspose, add_comm]
  congr 1
  simp

lemma kronecker_hermitian {d1 d2 : ℕ} {A : Matrix (Fin d1) (Fin d1) ℂ}
    {B : Matrix (Fin d2) (Fin d2) ℂ} (hA : A.IsHermitian) (hB : B.IsHermitian) :
    (Matrix.kroneckerMap (· * ·) A B).IsHermitian := by
  ext p q
  rw [Matrix.conjTranspose_apply, Matrix.kroneckerMap_apply, Matrix.kroneckerMap_apply,
    star_mul', hA.apply, hB.apply]

/-- C7: the control operators are exactly the claimed formulas — `sx{m}` is
`(2pi/2)(a + a.dag())`, `sy{m}` is `(2pi/2)(-i a + i a.dag())`, `zx{m}{m+1}`
is `2pi (z tensor x)` and `zx{m+1}{m}` is `2pi (x tensor z)` with `z`, `x` the
projected operators; both `zx` channels are attached to the site list
`[m, m+1]`; and the `zx` operators vanish on every matrix row or column whose
basis index has population outside the `{0, 1}` subspace of either site. -/
theorem c7_control_ops (d1 d2 : ℕ) (_h1 : 2 ≤ d1) (_h2 : 2 ≤ d2) :
    sxOp d1 = ((2 * Real.pi / 2 : ℝ) : ℂ) • (destroyMat d1 + (destroyMat d1)ᴴ)
    ∧ syOp d1 = ((2 * Real.pi / 2 : ℝ) : ℂ)
        • ((-Complex.I) • destroyMat d1 + Complex.I • (destroyMat d1)ᴴ)
    ∧ zxOpA d1 d2
        = ((2 * Real.pi : ℝ) : ℂ) • Matrix.kroneckerMap (· * ·) (zOp d1) (xOp d2)
    ∧ zxOpB d1 d2
        = ((2 * Real.pi : ℝ) : ℂ) • Matrix.kroneckerMap (· * ·) (xOp d1) (zOp d2)
    ∧ (∀ N m : ℕ, m + 1 < N →
        ("zx" ++ natStr m ++ natStr (m + 1), [m, m + 1]) ∈ controlKeySites N
          ∧ ("zx" ++ natStr (m + 1) ++ natStr m, [m, m + 1]) ∈ controlKeySites N)
    ∧ (∀ p q : Fin d1 × Fin d2, (2 ≤ (p.1 : ℕ) ∨ 2 ≤ (p.2 : ℕ)) →
        zxOpA d1 d2 p q = 0 ∧ zxOpA d1 d2 q p = 0
          ∧ zxOpB d1 d2 p q = 0 ∧ zxOpB d1 d2 q p = 0) := by
  refine ⟨rfl, rfl, rfl, rfl, ?_, ?_⟩
  · intro N m hm
    constructor <;>
    · refine List.mem_append.mpr (Or.inr ?_)
      refine List.mem_flatten.mpr
        ⟨_, List.mem_map_of_mem _ (List.mem_range.mpr (by omega : m < N - 1)), ?_⟩
      simp
  · intro p q hp
    refine ⟨?_, ?_, ?_, ?_⟩
    · rcases hp with hp | hp
      · have hz := zOp_leak d1 p.1 q.1 (Or.inl hp)
        simp [zxOpA, Matrix.smul_apply, Matrix.kroneckerMap_apply, hz]
      · have hx := xOp_leak d2 p.2 q.2 (Or.inl hp)
        simp [zxOpA, Matrix.smul_apply, Matrix.kroneckerMap_apply, hx]
    · rcases hp with hp | hp
      · have hz := zOp_leak d1 q.1 p.1 (Or.inr hp)
        simp [zxOpA, Matrix.smul_apply, Matrix.kroneckerMap_apply, hz]
      · have hx := xOp_leak d2 q.2 p.2 (Or.inr hp)
        simp [zxOpA, Matrix.smul_apply, Matrix.kroneckerMap_apply, hx]
    · rcases hp with hp | hp
      · have hx := xOp_leak d1 p.1 q.1 (Or.inl hp)
        simp [zxOpB, Matrix.smul_apply, Matrix.kroneckerMap_apply, hx]
      · have hz := zOp_leak d2 p.2 q.2 (Or.inl hp)
        simp [zxOpB, Matrix.smul_apply, Matrix.kroneckerMap_apply, hz]
    · rcases hp with hp | hp
      · have hx := xOp_leak d1 q.1 p.1 (Or.inr hp)
        simp [zxOpB, Matrix.smul_apply, Matrix.kroneckerMap_apply, hx]
      · have hz := zOp_leak d2 q.2 p.2 (Or.inr hp)
        simp [zxOpB, Matrix.smul_apply, Matrix.kroneckerMap_apply, hz]

/-- Witness for C7 at `d1 = d2 = 3`: the `zx` operator annihilates the leaked
basis state `|2>` of the first site. -/
theorem c7_witness :
    (2 : ℕ) ≤ 3 ∧ zxOpA 3 3 (2, 0) (0, 0) = 0 :=
  ⟨by decide,
    ((c7_control_ops 3 3 (by decide) (by decide)).2.2.2.2.2
      ((2 : Fin 3), (0 : Fin 3)) ((0 : Fin 3), (0 : Fin 3))
      (Or.inl (by decide))).1⟩

/-- C8: the drift list has exactly one entry per site in ascending site order,
each entry the local operator `2pi (alpha[m]/2) a.dag()^2 a^2` on the site's
own dimension paired with the singleton site list `[m]`; and the (spec-modelled)
embedding of such a local operator acts as the identity on every other site:
off-diagonal in any other site the embedded entry vanishes, and when all other
sites agree the entry is the local one. -/
theorem c8_drift_structure (N : ℕ) (dims : List ℕ) (alpha : List ℚ) :
    (driftList N dims alpha).length = N
    ∧ (∀ m : ℕ, m < N →
        (driftList N dims alpha)[m]? =
          some (⟨dims.getD m 0, driftOp (dims.getD m 0) (alpha.getD m 0)⟩, [m]))
    ∧ (∀ e ∈ driftList N dims alpha, ∃ m : ℕ, e.2 = [m])
    ∧ (∀ (n : ℕ) (ds : Fin n → ℕ) (m : Fin n) (a : ℚ)
        (p q : (i : Fin n) → Fin (ds i)) (i : Fin n), i ≠ m → p i ≠ q i →
        embedAt n ds m (driftOp (ds m) a) p q = 0)
    ∧ (∀ (n : ℕ) (ds : Fin n → ℕ) (m : Fin n) (a : ℚ)
        (p q : (i : Fin n) → Fin (ds i)), (∀ i : Fin n, i ≠ m → p i = q i) →
        embedAt n ds m (driftOp (ds m) a) p q = driftOp (ds m) a (p m) (q m)) := by
  refine ⟨by simp [driftList], ?_, ?_, ?_, ?_⟩
  · intro m hm
    simp [driftList, List.getElem?_map, List.getElem?_range hm]
  · intro e he
    simp only [driftList, List.mem_map, List.mem_range] at he
    obtain ⟨m, -, hme⟩ := he
    exact ⟨m, by rw [← hme]⟩
  · intro n ds m a p q i him hpq
    rw [embedAt, Matrix.of_apply,
      Finset.prod_eq_zero (Finset.mem_univ i) (by rw [if_neg him, if_neg hpq]), mul_zero]
  · intro n ds m a p q hpq
    rw [embedAt, Matrix.of_apply, Finset.prod_eq_one, mul_one]
    intro i _
    by_cases him : i = m
    · rw [if_pos him]
    · rw [if_neg him, if_pos (hpq i him)]

/-- Witness for C8 at `N = 2`, `dims = [3, 3]`: the first drift entry. -/
theorem c8_witness :
    (0 : ℕ) < 2
      ∧ (driftList 2 [3, 3] [1, 2])[0]? = some (⟨3, driftOp 3 1⟩, [0]) :=
  ⟨by decide, by
    have h := (c8_drift_structure 2 [3, 3] [1, 2]).2.1 0 (by decide)
    simpa using h⟩

/-- C10: every operator the model constructs — the drift term and all control
operators (`sx`, `sy`, the projected `z` and `x`, and both `zx` tensor
products) — is Hermitian. -/
theorem c10_hermitian (d1 d2 : ℕ) (a : ℚ) (_h1 : 2 ≤ d1) (_h2 : 2 ≤ d2) :
    (driftOp d1 a).IsHermitian ∧ (sxOp d1).IsHermitian ∧ (syOp d1).IsHermitian
      ∧ (zOp d1).IsHermitian ∧ (xOp d1).IsHermitian
      ∧ (zxOpA d1 d2).IsHermitian ∧ (zxOpB d1 d2).IsHermitian := by
  refine ⟨?_, ?_, ?_, zOp_hermitian d1, xOp_hermitian d1, ?_, ?_⟩
  · have hsq : ((destroyMat d1)ᴴ ^ 2 * destroyMat d1 ^ 2).IsHermitian := by
      rw [← Matrix.conjTranspose_pow]
      exact Matrix.isHermitian_transpose_mul_self (destroyMat d1 ^ 2)
    exact realSmul_hermitian hsq _
  · refine realSmul_hermitian ?_ _
    rw [Matrix.IsHermitian, Matrix.conjTranspose_add,
      Matrix.conjTranspose_conjTranspose, add_comm]
  · refine realSmul_hermitian ?_ _
    rw [Matrix.IsHermitian, Matrix.conjTranspose_add, Matrix.conjTranspose_smul,
      Matrix.conjTranspose_smul, Matrix.conjTranspose_conjTranspose]
    simp [Complex.star_def, Complex.conj_I, add_comm]
  · show (((2 * Real.pi : ℝ) : ℂ)
        • Matrix.kroneckerMap (· * ·) (zOp d1) (xOp d2)).IsHermitian
    exact realSmul_hermitian
      (kronecker_hermitian (zOp_hermitian d1) (xOp_hermitian d2)) _
  · show (((2 * Real.pi : ℝ) : ℂ)
        • Matrix.kroneckerMap (· * ·) (xOp d1) (zOp d2)).IsHermitian
    exact realSmul_hermitian
      (kronecker_hermitian (xOp_hermitian d1) (zOp_hermitian d2)) _

/-- Witness for C10 at `d = 3`, `alpha = 1`. -/
theorem c10_witness :
    (2 : ℕ) ≤ 3 ∧ (driftOp 3 1).IsHermitian :=
  ⟨by decide, (c10_hermitian 3 3 1 (by decide) (by decide)).1⟩

lemma digits10_lt (n : ℕ) (h1 : 0 < n) (h2 : n < 10) : Nat.digits 10 n = [n] := by
  rw [Nat.digits_def' (by norm_num : (1 : ℕ) < 10) h1, Nat.mod_eq_of_lt h2,
    Nat.div_eq_of_lt h2, Nat.digits_zero]

lemma decChars_length_pos (n : ℕ) : 0 < (decChars n).length := by
  by_cases h : n = 0
  · simp [decChars, h]
  · simp only [decChars, if_neg h, List.length_reverse, List.length_map]
    exact List.length_pos_of_ne_nil (Nat.digits_ne_nil_iff_ne_zero.mpr h)

lemma decChars_length (n : ℕ) (h : n ≠ 0) :
    (decChars n).length = Nat.log 10 n + 1 := by
  simp only [decChars, if_neg h, List.length_reverse, List.length_map]
  exact Nat.digits_len 10 n (by norm_num) h

lemma decChars_length_mono {m n : ℕ} (h : m ≤ n) :
    (decChars m).length ≤ (decChars n).length := by
  by_cases hm : m = 0
  · subst hm
    simpa [decChars] using decChars_length_pos n
  · have hn : n ≠ 0 := by omega
    rw [decChars_length m hm, decChars_length n hn]
    exact Nat.succ_le_succ (Nat.log_mono_right h)

lemma decChars_length_succ_le (n : ℕ) :
    (decChars (n + 1)).length ≤ (decChars n).length + 1 := by
  by_cases hn : n = 0
  · subst hn
    simp [decChars, digits10_lt 1 (by norm_num) (by norm_num)]
  · rw [decChars_length n hn, decChars_length (n + 1) (by omega)]
    have h1 : n + 1 ≤ n * 10 := by omega
    have h2 : Nat.log 10 (n + 1) ≤ Nat.log 10 (n * 10) := Nat.log_mono_right h1
    rw [Nat.log_mul_base (by norm_num) hn] at h2
    omega

lemma decChars_length_jump {n : ℕ}
    (h : (decChars (n + 1)).length = (decChars n).length + 1) :
    n + 1 = 10 ^ ((decChars n).length) := by
  by_cases hn : n = 0
  · subst hn
    simp [decChars, digits10_lt 1 (by norm_num) (by norm_num)] at h
  · rw [decChars_length n hn, decChars_length (n + 1) (by omega)] at h
    have hlog : Nat.log 10 (n + 1) = Nat.log 10 n + 1 := by omega
    have hub : n < 10 ^ (Nat.log 10 n + 1) := Nat.lt_pow_succ_log_self (by norm_num) n
    have hlb : 10 ^ Nat.log 10 (n + 1) ≤ n + 1 := Nat.pow_log_le_self 10 (by omega)
    rw [hlog] at hlb
    rw [decChars_length n hn]
    omega

lemma digits10_pow (k : ℕ) : Nat.digits 10 (10 ^ k) = List.replicate k 0 ++ [1] := by
  induction k with
  | zero => simp [digits10_lt 1 (by norm_num) (by norm_num)]
  | succ k ih =>
      rw [Nat.digits_def' (by norm_num : (1 : ℕ) < 10) (by positivity), pow_succ']
      have h1 : 10 * 10 ^ k % 10 = 0 := Nat.mul_mod_right 10 _
      have h2 : 10 * 10 ^ k / 10 = 10 ^ k := by omega
      rw [h1, h2, ih, List.replicate_succ]
      rfl

lemma decChars_pow (k : ℕ) : decChars (10 ^ k) = '1' :: List.replicate k '0' := by
  rw [decChars, if_neg (by positivity), digits10_pow, List.map_append, List.map_replicate,
    List.reverse_append, List.reverse_replicate]
  rfl

lemma digits10_pow_sub_one (k : ℕ) (h : 1 ≤ k) :
    Nat.digits 10 (10 ^ k - 1) = List.replicate k 9 := by
  induction k with
  | zero => omega
  | succ k ih =>
      by_cases hk : k = 0
      · subst hk
        simp [digits10_lt 9 (by norm_num) (by norm_num)]
      · have hpk : 1 ≤ 10 ^ k := Nat.one_le_pow k 10 (by norm_num)
        have hsplit : 10 ^ (k + 1) - 1 = 10 * (10 ^ k - 1) + 9 := by
          rw [pow_succ]
          omega
        have hten : (10 : ℕ) ≤ 10 ^ (k + 1) := by
          calc (10 : ℕ) = 10 ^ 1 := (pow_one 10).symm
          _ ≤ 10 ^ (k + 1) := Nat.pow_le_pow_right (by norm_num) (by omega)
        rw [Nat.digits_def' (by norm_num : (1 : ℕ) < 10) (by omega), hsplit]
        have h1 : (10 * (10 ^ k - 1) + 9) % 10 = 9 := by omega
        have h2 : (10 * (10 ^ k - 1) + 9) / 10 = 10 ^ k - 1 := by omega
        rw [h1, h2, ih (by omega), List.replicate_succ]

lemma decChars_pow_sub_one (k : ℕ) (h : 1 ≤ k) :
    decChars (10 ^ k - 1) = List.replicate k '9' := by
  have hten : (10 : ℕ) ≤ 10 ^ k := by
    calc (10 : ℕ) = 10 ^ 1 := (pow_one 10).symm
    _ ≤ 10 ^ k := Nat.pow_le_pow_right (by norm_num) h
  rw [decChars, if_neg (by omega), digits10_pow_sub_one k h, List.map_replicate,
    List.reverse_replicate]
  rfl

lemma digitChar_inj : ∀ a, a < 10 → ∀ b, b < 10 →
    Nat.digitChar a = Nat.digitChar b → a = b := by decide

lemma map_digitChar_inj : ∀ (xs ys : List ℕ), (∀ x ∈ xs, x < 10) →
    (∀ y ∈ ys, y < 10) → xs.map Nat.digitChar = ys.map Nat.digitChar → xs = ys := by
  intro xs
  induction xs with
  | nil =>
      intro ys _ _ h
      cases ys with
      | nil => rfl
      | cons b ys => simp at h
  | cons a xs ih =>
      intro ys hx hy h
      cases ys with
      | nil => simp at h
      | cons b ys =>
          simp only [List.map_cons, List.cons.injEq] at h
          have hab : a = b :=
            digitChar_inj a (hx a (by simp)) b (hy b (by simp)) h.1
          rw [hab, ih ys (fun x hxm => hx x (by simp [hxm]))
            (fun y hym => hy y (by simp [hym])) h.2]

lemma decChars_singleton_zero {n : ℕ} (h : decChars n = ['0']) : n = 0 := by
  by_contra hn
  rw [decChars, if_neg hn] at h
  have h' : (Nat.digits 10 n).map Nat.digitChar = ['0'] := by
    rw [← List.reverse_reverse ((Nat.digits 10 n).map Nat.digitChar), h]
    rfl
  have hd : Nat.digits 10 n = [0] :=
    map_digitChar_inj (Nat.digits 10 n) [0]
      (fun x hx => Nat.digits_lt_base (by norm_num) hx)
      (by intro y hy; simp at hy; omega)
      (by rw [h']; rfl)
  have hlast := Nat.getLast_digit_ne_zero 10 hn
  revert hlast
  simp [hd]

lemma decChars_inj {m n : ℕ} (h : decChars m = decChars n) : m = n := by
  by_cases hm : m = 0 <;> by_cases hn : n = 0
  · omega
  · subst hm
    exact absurd (decChars_singleton_zero h.symm) hn
  · subst hn
    exact decChars_singleton_zero h
  · simp only [decChars, if_neg hm, if_neg hn, List.reverse_inj] at h
    have := map_digitChar_inj (Nat.digits 10 m) (Nat.digits 10 n)
      (fun x hx => Nat.digits_lt_base (by norm_num) hx)
      (fun y hy => Nat.digits_lt_base (by norm_num) hy) h
    exact Nat.digits_inj_iff.mp this

lemma decChars_ff_inj {a c : ℕ}
    (h : decChars a ++ decChars (a + 1) = decChars c ++ decChars (c + 1)) : a = c := by
  have hlen : (decChars a).length + (decChars (a + 1)).length
      = (decChars c).length + (decChars (c + 1)).length := by
    simpa using congrArg List.length h
  have hma := decChars_length_mono (by omega : a ≤ a + 1)
  have hmc := decChars_length_mono (by omega : c ≤ c + 1)
  have hsa := decChars_length_succ_le a
  have hsc := decChars_length_succ_le c
  rcases lt_trichotomy (decChars a).length (decChars c).length with hlt | heq | hgt
  · omega
  · exact decChars_inj (List.append_inj h heq).1
  · omega

lemma decChars_rr_inj {a c : ℕ}
    (h : decChars (a + 1) ++ decChars a = decChars (c + 1) ++ decChars c) : a = c := by
  have hlen : (decChars (a + 1)).length + (decChars a).length
      = (decChars (c + 1)).length + (decChars c).length := by
    simpa using congrArg List.length h
  have hma := decChars_length_mono (by omega : a ≤ a + 1)
  have hmc := decChars_length_mono (by omega : c ≤ c + 1)
  have hsa := decChars_length_succ_le a
  have hsc := decChars_length_succ_le c
  rcases lt_trichotomy (decChars (a + 1)).length (decChars (c + 1)).length
    with hlt | heq | hgt
  · omega
  · have h1 := decChars_inj (List.append_inj h heq).1
    omega
  · omega

lemma decChars_fr_ne {a c : ℕ} :
    decChars a ++ decChars (a + 1) ≠ decChars (c + 1) ++ decChars c := by
  intro h
  have hlen : (decChars a).length + (decChars (a + 1)).length
      = (decChars (c + 1)).length + (decChars c).length := by
    simpa using congrArg List.length h
  have hma := decChars_length_mono (by omega : a ≤ a + 1)
  have hmc := decChars_length_mono (by omega : c ≤ c + 1)
  have hsa := decChars_length_succ_le a
  have hsc := decChars_length_succ_le c
  rcases lt_trichotomy (decChars a).length (decChars (c + 1)).length with hlt | heq | hgt
  · have e1 : (decChars (a + 1)).length = (decChars a).length + 1 := by omega
    have e2 : (decChars (c + 1)).length = (decChars c).length + 1 := by omega
    have e3 : (decChars c).length = (decChars a).length := by omega
    have ha := decChars_length_jump e1
    have hc := decChars_length_jump e2
    rw [e3] at hc
    have hac : a = c := by omega
    subst hac
    have hk := decChars_length_pos a
    set k := (decChars a).length with hkdef
    have hp : 1 ≤ 10 ^ k := Nat.one_le_pow _ _ (by norm_num)
    have h9 : decChars a = List.replicate k '9' := by
      rw [show a = 10 ^ k - 1 by omega]
      exact decChars_pow_sub_one k (by omega)
    have h10 : decChars (a + 1) = '1' :: List.replicate k '0' := by
      rw [show a + 1 = 10 ^ k by omega]
      exact decChars_pow k
    rw [h9, h10] at h
    obtain ⟨k', hk'⟩ : ∃ k', k = k' + 1 := ⟨k - 1, by omega⟩
    rw [hk'] at h
    simp only [List.replicate_succ, List.cons_append, List.cons.injEq] at h
    exact absurd h.1 (by decide)
  · have h1 := decChars_inj (List.append_inj h heq).1
    have h2 := decChars_inj (List.append_inj h heq).2
    omega
  · omega

lemma sx_inj : Function.Injective (fun m : ℕ => "sx" ++ natStr m) := by
  intro a b h
  have h' : 's' :: 'x' :: decChars a = 's' :: 'x' :: decChars b := congrArg String.data h
  simp only [List.cons.injEq, true_and] at h'
  exact decChars_inj h'

lemma sy_inj : Function.Injective (fun m : ℕ => "sy" ++ natStr m) := by
  intro a b h
  have h' : 's' :: 'y' :: decChars a = 's' :: 'y' :: decChars b := congrArg String.data h
  simp only [List.cons.injEq, true_and] at h'
  exact decChars_inj h'

lemma zxF_eq_zxF {a b : ℕ} (h : "zx" ++ natStr a ++ natStr (a + 1)
    = "zx" ++ natStr b ++ natStr (b + 1)) : a = b := by
  have h' : 'z' :: 'x' :: (decChars a ++ decChars (a + 1))
      = 'z' :: 'x' :: (decChars b ++ decChars (b + 1)) := congrArg String.data h
  simp only [List.cons.injEq, true_and] at h'
  exact decChars_ff_inj h'

lemma zxR_eq_zxR {a b : ℕ} (h : "zx" ++ natStr (a + 1) ++ natStr a
    = "zx" ++ natStr (b + 1) ++ natStr b) : a = b := by
  have h' : 'z' :: 'x' :: (decChars (a + 1) ++ decChars a)
      = 'z' :: 'x' :: (decChars (b + 1) ++ decChars b) := congrArg String.data h
  simp only [List.cons.injEq, true_and] at h'
  exact decChars_rr_inj h'

lemma zxF_ne_zxR (a b : ℕ) : "zx" ++ natStr a ++ natStr (a + 1)
    ≠ "zx" ++ natStr (b + 1) ++ natStr b := by
  intro h
  have h' : 'z' :: 'x' :: (decChars a ++ decChars (a + 1))
      = 'z' :: 'x' :: (decChars (b + 1) ++ decChars b) := congrArg String.data h
  simp only [List.cons.injEq, true_and] at h'
  exact decChars_fr_ne h'

lemma sx_ne_sy (a b : ℕ) : "sx" ++ natStr a ≠ "sy" ++ natStr b := by
  intro h
  have h' : 's' :: 'x' :: decChars a = 's' :: 'y' :: decChars b := congrArg String.data h
  simp only [List.cons.injEq] at h'
  exact absurd h'.2.1 (by decide)

lemma sx_ne_zx (a b c : ℕ) : "sx" ++ natStr a ≠ "zx" ++ natStr b ++ natStr c := by
  intro h
  have h' : 's' :: 'x' :: decChars a
      = 'z' :: 'x' :: (decChars b ++ decChars c) := congrArg String.data h
  simp only [List.cons.injEq] at h'
  exact absurd h'.1 (by decide)

lemma sy_ne_zx (a b c : ℕ) : "sy" ++ natStr a ≠ "zx" ++ natStr b ++ natStr c := by
  intro h
  have h' : 's' :: 'y' :: decChars a
      = 'z' :: 'x' :: (decChars b ++ decChars c) := congrArg String.data h
  simp only [List.cons.injEq] at h'
  exact absurd h'.1 (by decide)

lemma flatten_pairs_length {α : Type} (f : ℕ → List α) (h : ∀ m, (f m).length = 2)
    (l : List ℕ) : ((l.map f).flatten).length = 2 * l.length := by
  induction l with
  | nil => simp
  | cons a l ih =>
      simp only [List.map_cons, List.flatten_cons, List.length_append, ih, h,
        List.length_cons]
      omega

/-- C6: for every `num_qubits = N ≥ 1` the control mapping has exactly
`2N + 2(N-1)` channels, all keys distinct, and the insertion order is the
single-qubit `sx` channels, then the `sy` channels, then for each adjacent
pair in ascending order the two `zx` directions; for `N = 1` only `sx0` and
`sy0` exist. -/
theorem c6_control_channels (N : ℕ) (_hN : 1 ≤ N) :
    (controlKeySites N).length = 2 * N + 2 * (N - 1)
    ∧ ((controlKeySites N).map Prod.fst).Nodup
    ∧ controlKeySites N =
        ((List.range N).map fun m => ("sx" ++ natStr m, [m]))
          ++ ((List.range N).map fun m => ("sy" ++ natStr m, [m]))
          ++ ((List.range (N - 1)).map fun m =>
                [("zx" ++ natStr m ++ natStr (m + 1), [m, m + 1]),
                  ("zx" ++ natStr (m + 1) ++ natStr m, [m, m + 1])]).flatten
    ∧ controlKeySites 1 = [("sx0", [0]), ("sy0", [0])] := by
  refine ⟨?_, ?_, rfl, by decide⟩
  · have hfl := flatten_pairs_length (fun m =>
        [("zx" ++ natStr m ++ natStr (m + 1), ([m, m + 1] : List ℕ)),
          ("zx" ++ natStr (m + 1) ++ natStr m, [m, m + 1])]) (fun m => rfl)
        (List.range (N - 1))
    rw [List.length_range] at hfl
    simp only [controlKeySites, List.length_append, List.length_map, List.length_range,
      hfl]
    omega
  · have hkeys : (controlKeySites N).map Prod.fst
        = (((List.range N).map fun m => "sx" ++ natStr m)
            ++ ((List.range N).map fun m => "sy" ++ natStr m))
          ++ ((List.range (N - 1)).map fun m =>
                ["zx" ++ natStr m ++ natStr (m + 1),
                  "zx" ++ natStr (m + 1) ++ natStr m]).flatten := by
      simp only [controlKeySites, List.map_append, List.map_flatten, List.map_map]
      rfl
    rw [hkeys, List.nodup_append, List.nodup_append]
    refine ⟨⟨List.Nodup.map sx_inj (List.nodup_range N),
      List.Nodup.map sy_inj (List.nodup_range N), ?_⟩, ?_, ?_⟩
    · intro x hx hy
      simp only [List.mem_map, List.mem_range] at hx hy
      obtain ⟨a, -, rfl⟩ := hx
      obtain ⟨b, -, hb⟩ := hy
      exact sx_ne_sy a b hb.symm
    · rw [List.nodup_flatten]
      constructor
      · intro l hl
        simp only [List.mem_map, List.mem_range] at hl
        obtain ⟨m, -, rfl⟩ := hl
        simp only [List.nodup_cons, List.mem_singleton, List.not_mem_nil,
          not_false_eq_true, and_true, List.nodup_nil]
        exact zxF_ne_zxR m m
      · rw [List.pairwise_map]
        refine List.Pairwise.imp ?_ (List.pairwise_lt_range (N - 1))
        intro a b hab x hx hy
        simp only [List.mem_cons, List.not_mem_nil, or_false] at hx hy
        rcases hx with rfl | rfl
        · rcases hy with hy | hy
          · exact absurd (zxF_eq_zxF hy) (by omega)
          · exact zxF_ne_zxR a b hy
        · rcases hy with hy | hy
          · exact zxF_ne_zxR b a hy.symm
          · exact absurd (zxR_eq_zxR hy) (by omega)
    · intro x hx hy
      simp only [List.mem_flatten, List.mem_map, List.mem_range] at hy
      obtain ⟨l, ⟨m, -, rfl⟩, hxl⟩ := hy
      simp only [List.mem_cons, List.not_mem_nil, or_false] at hxl
      rw [List.mem_append] at hx
      simp only [List.mem_map, List.mem_range] at hx
      rcases hx with ⟨a, -, rfl⟩ | ⟨a, -, rfl⟩
      · rcases hxl with h | h
        · exact sx_ne_zx a m (m + 1) h
        · exact sx_ne_zx a (m + 1) m h
      · rcases hxl with h | h
        · exact sy_ne_zx a m (m + 1) h
        · exact sy_ne_zx a (m + 1) m h

/-- Witness for C6 at `N = 2`. -/
theorem c6_witness :
    (1 : ℕ) ≤ 2 ∧ (controlKeySites 2).length = 2 * 2 + 2 * (2 - 1) :=
  ⟨by decide, (c6_control_channels 2 (by decide)).1⟩

end SCQ
